import Mathlib

/-!
Shallow embedding of src/dados_meteorologicos.py.

Numbers parsed by Python float are modelled as rationals; dates produced by
datetime.strptime are modelled as a (dia, mes, ano) structure compared
lexicographically on (ano, mes, dia), exactly as Python datetime comparison
does.  A CSV cell is modelled by the outcome of the two parsers the source
applies to it: a cell is either text that strptime with the dd/mm/yyyy format
accepts (carrying the parsed date), text that float accepts (carrying the
parsed number), or text that both reject; no text is accepted by both parsers,
so the three cases are exhaustive and disjoint.  Python dicts preserve
insertion order, so they are modelled as association lists in which a fresh
key is appended at the end.  A Python function that can raise is modelled
with Option, none being the raising outcome.
-/

structure Date where
  dia : Int
  mes : Int
  ano : Int
deriving DecidableEq, Repr

/-- Python datetime comparison is lexicographic on (year, month, day). -/
def Date.le (a b : Date) : Bool :=
  decide (a.ano < b.ano ∨ (a.ano = b.ano ∧
    (a.mes < b.mes ∨ (a.mes = b.mes ∧ a.dia ≤ b.dia))))

/-- One record of the in-memory collection built by carregar_dados: the dict
with keys data, precipitacao, temp_max, temp_min, umidade, vento. -/
structure Registro where
  data : Date
  precipitacao : ℚ
  temp_max : ℚ
  temp_min : ℚ
  umidade : ℚ
  vento : ℚ
deriving DecidableEq, Repr

/-- A CSV cell, classified by which of the two parsers of the source accepts
it: a date cell (strptime succeeds), a number cell (float succeeds), or text
rejected by both. -/
inductive Cell where
  | dataCell (d : Date) : Cell
  | numCell (q : ℚ) : Cell
  | outroCell : Cell
deriving DecidableEq, Repr

/-- Outcome of datetime.strptime(cell, dd/mm/yyyy): some on a date cell. -/
def parseData : Cell → Option Date
  | Cell.dataCell d => some d
  | _ => none

/-- Outcome of float(cell): some on a number cell. -/
def parseFloat : Cell → Option ℚ
  | Cell.numCell q => some q
  | _ => none

/-- The body of the loop of carregar_dados for one row with at least six
columns: parse column 0 as a date and columns 1-5 as floats; none models the
row raising an exception in one of those parses.  A row with fewer than six
columns also yields none (the source never reaches the parses for it). -/
def parseLinha (linha : List Cell) : Option Registro :=
  match linha with
  | c0 :: c1 :: c2 :: c3 :: c4 :: c5 :: _ =>
    match parseData c0, parseFloat c1, parseFloat c2,
          parseFloat c3, parseFloat c4, parseFloat c5 with
    | some d, some p, some tmx, some tmn, some u, some v =>
      some { data := d, precipitacao := p, temp_max := tmx,
             temp_min := tmn, umidade := u, vento := v }
    | _, _, _, _, _, _ => none
  | _ => none

/-- The loop of carregar_dados over the rows after the header.  A row with
fewer than six columns is skipped by the length test; a row with at least six
columns whose parse raises propagates the exception (none) out of the whole
loop, because the try/except of the source wraps the entire loop, not the
body of one iteration. -/
def processaLinhas : List (List Cell) → Option (List Registro)
  | [] => some []
  | linha :: resto =>
    if linha.length < 6 then processaLinhas resto
    else
      match parseLinha linha with
      | some r => (processaLinhas resto).map (fun rs => r :: rs)
      | none => none

/-- carregar_dados on the rows of an existing readable file, distinguishing
the exception path: none models any exception reaching the except handler
(next on an empty file raising StopIteration, or a parse error escaping the
loop); some rs is the normal return of the accumulated list. -/
def carregar_dados_opt (linhas : List (List Cell)) : Option (List Registro) :=
  match linhas with
  | [] => none
  | _ :: resto => processaLinhas resto

/-- carregar_dados as the caller sees it: the except handler prints a message
and returns the empty list, so the exception path collapses to []. -/
def carregar_dados (linhas : List (List Cell)) : List Registro :=
  (carregar_dados_opt linhas).getD []

/-- validar_intervalo_datas.  The dados argument is kept to mirror the
signature of the source even though the body never touches it.  The function
returns a Bool and, being a chain of comparisons on ints, cannot raise. -/
def validar_intervalo_datas (dados : List Registro)
    (mes_inicio ano_inicio mes_fim ano_fim : Int) : Bool :=
  if ¬(1 ≤ mes_inicio ∧ mes_inicio ≤ 12 ∧ 1 ≤ mes_fim ∧ mes_fim ≤ 12) then
    false
  else if ¬(1961 ≤ ano_inicio ∧ ano_inicio ≤ 2016 ∧
            1961 ≤ ano_fim ∧ ano_fim ≤ 2016) then
    false
  else if ano_inicio > ano_fim ∨
          (ano_inicio = ano_fim ∧ mes_inicio > mes_fim) then
    false
  else
    true

/-- The record selection performed by visualizar_dados: if the range is
invalid it prints a message and shows nothing; otherwise it prints exactly
the records r with datetime(ano_inicio, mes_inicio, 1) <= r.data <=
datetime(ano_fim, mes_fim, 1), in collection order.  The projection by
tipo_visualizacao only chooses which fields are printed per shown record, so
it is dropped from the embedding, which returns the list of shown records. -/
def visualizar_dados (dados : List Registro)
    (mes_inicio ano_inicio mes_fim ano_fim : Int) : List Registro :=
  if validar_intervalo_datas dados mes_inicio ano_inicio mes_fim ano_fim then
    dados.filter (fun r =>
      Date.le ⟨1, mes_inicio, ano_inicio⟩ r.data &&
      Date.le r.data ⟨1, mes_fim, ano_fim⟩)
  else
    []

/-- strftime %B: the English month name, as produced in the C locale. -/
def mesNome : Int → String
  | 1 => "January"
  | 2 => "February"
  | 3 => "March"
  | 4 => "April"
  | 5 => "May"
  | 6 => "June"
  | 7 => "July"
  | 8 => "August"
  | 9 => "September"
  | 10 => "October"
  | 11 => "November"
  | 12 => "December"
  | _ => ""

/-- strftime with format %B/%Y: the key of mes_mais_chuvoso. -/
def chaveMesAno (d : Date) : String :=
  mesNome d.mes ++ "/" ++ toString d.ano

/-- The key of media_temp_minima_mes: month name and year, no separator. -/
def chaveMes (d : Date) : String :=
  mesNome d.mes ++ toString d.ano

/-- Dict update of mes_mais_chuvoso: if the key is absent it is created with
value 0 and then incremented, that is, appended with value v; otherwise the
stored sum is incremented in place. -/
def somaPrecip (k : String) (v : ℚ) :
    List (String × ℚ) → List (String × ℚ)
  | [] => [(k, v)]
  | (k2, s) :: resto =>
    if k2 = k then (k2, s + v) :: resto else (k2, s) :: somaPrecip k v resto

/-- The grouping dict precipitacao_por_mes built by mes_mais_chuvoso. -/
def precipitacao_por_mes (dados : List Registro) : List (String × ℚ) :=
  dados.foldl (fun acc r => somaPrecip (chaveMesAno r.data) r.precipitacao acc) []

/-- Python max(items, key) over a non-empty sequence: the first element whose
key is maximal (a later element replaces the candidate only when strictly
greater); none models the ValueError max raises on an empty sequence. -/
def maxPorValor : List (String × ℚ) → Option (String × ℚ)
  | [] => none
  | p :: resto =>
    some (resto.foldl (fun melhor x => if x.2 > melhor.2 then x else melhor) p)

/-- mes_mais_chuvoso: group all records by month name/year, sum precipitation
per key, take the entry of maximum sum.  none is the raising outcome on an
empty grouping. -/
def mes_mais_chuvoso (dados : List Registro) : Option (String × ℚ) :=
  maxPorValor (precipitacao_por_mes dados)

/-- Dict-of-lists update of media_temp_minima_mes: an absent key is created
with the empty list and then the value is appended. -/
def acrescenta (k : String) (v : ℚ) :
    List (String × List ℚ) → List (String × List ℚ)
  | [] => [(k, [v])]
  | (k2, l) :: resto =>
    if k2 = k then (k2, l ++ [v]) :: resto else (k2, l) :: acrescenta k v resto

/-- The grouping loop of media_temp_minima_mes: records of years 2006-2016
whose month equals mes contribute their temp_min to the list of their key. -/
def agrupaTempMin (dados : List Registro) (mes : Int) :
    List (String × List ℚ) :=
  dados.foldl (fun acc r =>
    if 2006 ≤ r.data.ano ∧ r.data.ano ≤ 2016 ∧ r.data.mes = mes then
      acrescenta (chaveMes r.data) r.temp_min acc
    else acc) []

/-- media_temp_minima_mes: empty result for a month outside 1..12, otherwise
each grouped list is replaced by its average sum/length. -/
def media_temp_minima_mes (dados : List Registro) (mes : Int) :
    List (String × ℚ) :=
  if ¬(1 ≤ mes ∧ mes ≤ 12) then []
  else (agrupaTempMin dados mes).map (fun p => (p.1, p.2.sum / (p.2.length : ℚ)))

/-- Lookup in an association list, mirroring Python dict access. -/
def procura {α : Type} (k : String) : List (String × α) → Option α
  | [] => none
  | (k2, v) :: resto => if k2 = k then some v else procura k resto

/-- Keys of an association list, in insertion order. -/
def keysOf {α : Type} (l : List (String × α)) : List String :=
  l.map Prod.fst

/-- Short record builder for concrete inputs. -/
def reg (dia mes ano : Int) (p tmx tmn u v : ℚ) : Registro :=
  { data := ⟨dia, mes, ano⟩, precipitacao := p, temp_max := tmx,
    temp_min := tmn, umidade := u, vento := v }

/-- A header row: six cells none of which parses. -/
def cab : List Cell :=
  [Cell.outroCell, Cell.outroCell, Cell.outroCell,
   Cell.outroCell, Cell.outroCell, Cell.outroCell]

/-- A well-formed row: a date cell then five number cells. -/
def boaLinha : List Cell :=
  [Cell.dataCell ⟨3, 6, 2012⟩, Cell.numCell 1, Cell.numCell 2,
   Cell.numCell 3, Cell.numCell 4, Cell.numCell 5]

/-- The record boaLinha parses to. -/
def regBoa : Registro := reg 3 6 2012 1 2 3 4 5

/-- A malformed row of six columns: the date cell does not parse. -/
def maLinha : List Cell :=
  [Cell.outroCell, Cell.numCell 1, Cell.numCell 2,
   Cell.numCell 3, Cell.numCell 4, Cell.numCell 5]

/-- A row with fewer than six columns. -/
def curtaLinha : List Cell :=
  [Cell.dataCell ⟨3, 6, 2012⟩, Cell.numCell 1]

/-- Concrete records for the filter boundary scenarios. -/
def reg1502 : Registro := reg 15 2 2015 1 2 3 4 5

def reg0104 : Registro := reg 1 4 2015 1 2 3 4 5

def reg0103 : Registro := reg 1 3 2015 1 2 3 4 5

def regMar15 : Registro := reg 15 3 2015 1 2 3 4 5

/-- Concrete records for the wettest-month scenario. -/
def regJan10 : Registro := reg 10 1 2010 5 0 0 0 0

def regFev10 : Registro := reg 11 2 2010 20 0 0 0 0

/-- Concrete records for the minimum-temperature scenario. -/
def regT1 : Registro := reg 5 1 2007 0 0 10 0 0

def regT2 : Registro := reg 20 1 2007 0 0 14 0 0

/-- The key media_temp_minima_mes builds for month mes and year ano. -/
def chaveAno (mes ano : Int) : String :=
  mesNome mes ++ toString ano

/-- Total precipitation of the records carrying a given key. -/
def somaChave (dados : List Registro) (k : String) : ℚ :=
  ((dados.filter (fun r => decide (chaveMesAno r.data = k))).map
    (fun r => r.precipitacao)).sum

/-- The temp_min values, in collection order, of the records the grouping
loop of media_temp_minima_mes sends to a given key. -/
def valoresChave (dados : List Registro) (mes : Int) (k : String) : List ℚ :=
  (dados.filter (fun r =>
    decide ((2006 ≤ r.data.ano ∧ r.data.ano ≤ 2016 ∧ r.data.mes = mes) ∧
      chaveMes r.data = k))).map (fun r => r.temp_min)

/-- The records of a given year and month. -/
def filtraAnoMes (dados : List Registro) (y mes : Int) : List Registro :=
  dados.filter (fun r => decide (r.data.ano = y ∧ r.data.mes = mes))

/-- C6.  validar_intervalo_datas returns false exactly when a month is
outside 1..12, a year is outside 1961..2016, or the start is chronologically
after the end at month granularity; otherwise it returns true.  The function
is a total Bool-valued chain of integer comparisons, so it cannot raise. -/
theorem validar_caracterizacao (dados : List Registro) (m1 y1 m2 y2 : Int) :
    validar_intervalo_datas dados m1 y1 m2 y2 = false ↔
      (m1 < 1 ∨ 12 < m1 ∨ m2 < 1 ∨ 12 < m2 ∨
       y1 < 1961 ∨ 2016 < y1 ∨ y2 < 1961 ∨ 2016 < y2 ∨
       y2 < y1 ∨ (y1 = y2 ∧ m2 < m1)) := by
  unfold validar_intervalo_datas
  split_ifs with h1 h2 h3 <;> simp <;> omega

/-- C10.  validar_intervalo_datas never inspects its dados argument: its
value is the same on any two record collections. -/
theorem validar_independenteDosDados (d1 d2 : List Registro)
    (m1 y1 m2 y2 : Int) :
    validar_intervalo_datas d1 m1 y1 m2 y2 =
      validar_intervalo_datas d2 m1 y1 m2 y2 := rfl

/-- C7.  For a month outside 1..12, media_temp_minima_mes returns the empty
mapping instead of raising. -/
theorem media_mesInvalido (dados : List Registro) (mes : Int)
    (h : mes < 1 ∨ 12 < mes) :
    media_temp_minima_mes dados mes = [] := by
  unfold media_temp_minima_mes
  rw [if_pos]
  omega

theorem media_mesInvalido_witness :
    media_temp_minima_mes [regT1, regT2] 13 = [] :=
  media_mesInvalido [regT1, regT2] 13 (by omega)

/-- C2 counterexample.  The range Jan/2015..Mar/2015 is valid, yet the
record dated 15/03/2015 — a day of the end month beyond the 1st — is not
shown: the comparison against datetime(2015, 3, 1) excludes it, so the
claimed inclusion quirk does not hold on the code. -/
theorem visualizar_quirk_cex :
    validar_intervalo_datas [regMar15] 1 2015 3 2015 = true ∧
    visualizar_dados [regMar15] 1 2015 3 2015 = [] := by decide

/-- C2 amended.  For every validated range, a record whose date lies in the
end month on a day after the 1st is excluded from the output, because the
upper comparison bound is the 1st of the end month. -/
theorem visualizar_excluiFimDeMes (dados : List Registro)
    (m1 y1 m2 y2 : Int) (r : Registro)
    (hv : validar_intervalo_datas dados m1 y1 m2 y2 = true)
    (hano : r.data.ano = y2) (hmes : r.data.mes = m2)
    (hdia : 2 ≤ r.data.dia) :
    r ∉ visualizar_dados dados m1 y1 m2 y2 := by
  unfold visualizar_dados
  rw [if_pos hv]
  intro hmem
  rw [List.mem_filter, Bool.and_eq_true] at hmem
  obtain ⟨-, -, hle⟩ := hmem
  unfold Date.le at hle
  simp only [decide_eq_true_eq] at hle
  omega

theorem visualizar_excluiFimDeMes_witness :
    regMar15 ∉ visualizar_dados [reg1502, regMar15] 1 2015 3 2015 :=
  visualizar_excluiFimDeMes [reg1502, regMar15] 1 2015 3 2015 regMar15
    (by decide) rfl rfl (by decide)

/-- C3.  Over any validated range, visualizar_dados shows exactly the
records between the 1st of the start month and the 1st of the end month
inclusive, under datetime order; concretely, for the range
Jan/2015..Mar/2015 the record dated 15/02/2015 is shown, the record dated
01/04/2015 is not, and the record dated exactly 01/03/2015 is shown. -/
theorem visualizar_filtroLimites :
    (∀ (dados : List Registro) (m1 y1 m2 y2 : Int),
        validar_intervalo_datas dados m1 y1 m2 y2 = true →
        ∀ r : Registro,
          (r ∈ visualizar_dados dados m1 y1 m2 y2 ↔
            r ∈ dados ∧ Date.le ⟨1, m1, y1⟩ r.data = true ∧
              Date.le r.data ⟨1, m2, y2⟩ = true)) ∧
    visualizar_dados [reg1502, reg0104, reg0103] 1 2015 3 2015 =
      [reg1502, reg0103] := by
  constructor
  · intro dados m1 y1 m2 y2 hv r
    unfold visualizar_dados
    rw [if_pos hv, List.mem_filter, Bool.and_eq_true]
  · decide

theorem visualizar_filtroLimites_witness :
    reg1502 ∈ visualizar_dados [reg1502, reg0104, reg0103] 1 2015 3 2015 := by
  rw [(visualizar_filtroLimites.1 [reg1502, reg0104, reg0103] 1 2015 3 2015
    (by decide)) reg1502]
  decide

/-- Helper.  A row with fewer than six columns never yields a record. -/
theorem parseLinha_curta : ∀ l : List Cell, l.length < 6 → parseLinha l = none
  | [], _ => rfl
  | [_], _ => rfl
  | [_, _], _ => rfl
  | [_, _, _], _ => rfl
  | [_, _, _, _], _ => rfl
  | [_, _, _, _, _], _ => rfl
  | _ :: _ :: _ :: _ :: _ :: _ :: _, h => by simp at h; omega

/-- Helper.  A row of at least six columns whose parse raises makes the
whole loop raise. -/
theorem processa_aborta (rows : List (List Cell)) (l : List Cell)
    (hmem : l ∈ rows) (hlen : 6 ≤ l.length) (hbad : parseLinha l = none) :
    processaLinhas rows = none := by
  induction rows with
  | nil => cases hmem
  | cons a resto ih =>
    rw [List.mem_cons] at hmem
    unfold processaLinhas
    rcases hmem with rfl | hmem
    · rw [if_neg (by omega), hbad]
    · by_cases hl : a.length < 6
      · rw [if_pos hl]
        exact ih hmem
      · rw [if_neg hl]
        cases hpa : parseLinha a with
        | none => rfl
        | some r => rw [ih hmem]; rfl

/-- C1 counterexample.  A file whose rows after the header are one
well-formed row and one six-column row with an unparseable date loads to the
empty collection: the malformed row does not merely drop itself, it destroys
the well-formed row too, because the try/except wraps the whole loop. -/
theorem carregar_naoMelhorEsforco_cex :
    parseLinha boaLinha = some regBoa ∧
    6 ≤ maLinha.length ∧ parseLinha maLinha = none ∧
    carregar_dados [cab, boaLinha, maLinha] = [] := by decide

/-- C1 amended.  If any row after the header has at least six columns and a
date or numeric field that fails to parse, carregar_dados returns the empty
list, discarding every well-formed row as well; only rows with fewer than
six columns are dropped per row. -/
theorem carregar_abortaComLinhaMa (linhas : List (List Cell))
    (l : List Cell) (hmem : l ∈ linhas.tail) (hlen : 6 ≤ l.length)
    (hbad : parseLinha l = none) :
    carregar_dados linhas = [] := by
  cases linhas with
  | nil => rfl
  | cons primeira resto =>
    show (processaLinhas resto).getD [] = []
    rw [processa_aborta resto l hmem hlen hbad]
    rfl

theorem carregar_abortaComLinhaMa_witness :
    carregar_dados [cab, maLinha, boaLinha] = [] :=
  carregar_abortaComLinhaMa [cab, maLinha, boaLinha] maLinha
    (by decide) (by decide) rfl

/-- Helper.  A successful run of the loop yields exactly the parseable rows
in their original order. -/
theorem processa_filterMap (rows : List (List Cell)) :
    ∀ recs : List Registro, processaLinhas rows = some recs →
      recs = rows.filterMap parseLinha := by
  induction rows with
  | nil =>
    intro recs h
    cases h
    rfl
  | cons a resto ih =>
    intro recs h
    unfold processaLinhas at h
    rw [List.filterMap_cons]
    by_cases hl : a.length < 6
    · rw [if_pos hl] at h
      rw [parseLinha_curta a hl]
      exact ih recs h
    · rw [if_neg hl] at h
      cases hpa : parseLinha a with
      | none => rw [hpa] at h; cases h
      | some r =>
        rw [hpa] at h
        cases hpr : processaLinhas resto with
        | none => rw [hpr] at h; cases h
        | some recs0 =>
          rw [hpr] at h
          simp at h
          subst h
          show r :: recs0 = r :: resto.filterMap parseLinha
          rw [ih recs0 hpr]

/-- C8.  On every file the loader finishes without an exception, the records
come out in source row order as the parseable suffix rows (a filterMap of
the rows after the header), every row with fewer than six columns is
excluded, and the record count is at most the row count minus the header. -/
theorem carregar_ordemEFiltro :
    (∀ (linhas : List (List Cell)) (recs : List Registro),
        carregar_dados_opt linhas = some recs →
        recs = linhas.tail.filterMap parseLinha ∧
          recs.length ≤ linhas.length - 1) ∧
    (∀ l : List Cell, l.length < 6 → parseLinha l = none) := by
  constructor
  · intro linhas recs h
    cases linhas with
    | nil => cases h
    | cons primeira resto =>
      have he : recs = resto.filterMap parseLinha := processa_filterMap resto recs h
      refine ⟨he, ?_⟩
      rw [he]
      simp only [List.length_cons, Nat.add_sub_cancel]
      exact List.length_filterMap_le parseLinha resto
  · exact parseLinha_curta

theorem carregar_ordemEFiltro_witness :
    ([regBoa] = ([cab, boaLinha, curtaLinha] : List (List Cell)).tail.filterMap
        parseLinha ∧
      [regBoa].length ≤ ([cab, boaLinha, curtaLinha] : List (List Cell)).length - 1) ∧
    parseLinha curtaLinha = none :=
  ⟨carregar_ordemEFiltro.1 [cab, boaLinha, curtaLinha] [regBoa] (by decide),
   carregar_ordemEFiltro.2 curtaLinha (by decide)⟩

/-- Helper.  The dict update of mes_mais_chuvoso never empties the dict. -/
theorem somaPrecip_ne_nil (k : String) (v : ℚ) (l : List (String × ℚ)) :
    somaPrecip k v l ≠ [] := by
  cases l with
  | nil => simp [somaPrecip]
  | cons p resto =>
    obtain ⟨k2, s⟩ := p
    unfold somaPrecip
    split <;> simp

/-- Helper.  The grouping fold of mes_mais_chuvoso preserves non-emptiness
of the accumulator. -/
theorem foldPrecip_ne_nil (dados : List Registro) :
    ∀ acc : List (String × ℚ), acc ≠ [] →
      dados.foldl (fun acc r =>
        somaPrecip (chaveMesAno r.data) r.precipitacao acc) acc ≠ [] := by
  induction dados with
  | nil => intro acc h; exact h
  | cons r resto ih =>
    intro acc h
    rw [List.foldl_cons]
    exact ih _ (somaPrecip_ne_nil _ _ _)

/-- Helper.  The grouping dict of mes_mais_chuvoso is empty only for the
empty collection. -/
theorem precipitacao_por_mes_ne_nil (dados : List Registro)
    (h : dados ≠ []) : precipitacao_por_mes dados ≠ [] := by
  cases dados with
  | nil => exact absurd rfl h
  | cons r resto =>
    unfold precipitacao_por_mes
    rw [List.foldl_cons]
    exact foldPrecip_ne_nil resto _ (somaPrecip_ne_nil _ _ _)

/-- C9.  On the empty collection the max of mes_mais_chuvoso is taken over
an empty grouping and raises (modelled none); on any non-empty collection
that branch is unreachable and a pair is returned. -/
theorem mes_mais_chuvoso_vazioFalha :
    mes_mais_chuvoso ([] : List Registro) = none ∧
    ∀ dados : List Registro, dados ≠ [] →
      ∃ p, mes_mais_chuvoso dados = some p := by
  refine ⟨rfl, ?_⟩
  intro dados h
  unfold mes_mais_chuvoso maxPorValor
  cases hg : precipitacao_por_mes dados with
  | nil => exact absurd hg (precipitacao_por_mes_ne_nil dados h)
  | cons g gs => exact ⟨_, rfl⟩

theorem mes_mais_chuvoso_vazioFalha_witness :
    ∃ p, mes_mais_chuvoso [regJan10] = some p :=
  mes_mais_chuvoso_vazioFalha.2 [regJan10] (by simp)

/-- Helper.  Lookup after the dict update of mes_mais_chuvoso: the updated
key holds its old total (zero when absent) plus the increment. -/
theorem procura_somaPrecip (k k2 : String) (v : ℚ) :
    ∀ l : List (String × ℚ),
      procura k (somaPrecip k2 v l) =
        if k2 = k then some ((procura k l).getD 0 + v) else procura k l := by
  intro l
  induction l with
  | nil =>
    simp only [somaPrecip, procura]
    split_ifs <;> simp
  | cons p resto ih =>
    obtain ⟨ka, s⟩ := p
    by_cases h1 : ka = k2
    · subst h1
      simp only [somaPrecip, if_pos rfl]
      by_cases h2 : ka = k
      · subst h2
        simp [procura]
      · simp [procura, h2]
    · simp only [somaPrecip, if_neg h1]
      by_cases h2 : ka = k
      · subst h2
        have h3 : ¬ k2 = ka := fun e => h1 e.symm
        simp [procura, h3]
      · simp [procura, h2, ih]

/-- Helper.  Lookup after the whole grouping fold of mes_mais_chuvoso: each
key accumulates exactly the precipitation of its records. -/
theorem procura_foldPrecip (dados : List Registro) :
    ∀ (acc : List (String × ℚ)) (k : String),
      (procura k (dados.foldl (fun acc r =>
          somaPrecip (chaveMesAno r.data) r.precipitacao acc) acc)).getD 0 =
        (procura k acc).getD 0 + somaChave dados k := by
  induction dados with
  | nil => intro acc k; simp [somaChave]
  | cons r resto ih =>
    intro acc k
    rw [List.foldl_cons, ih, procura_somaPrecip]
    unfold somaChave
    rw [List.filter_cons]
    by_cases hc : chaveMesAno r.data = k
    · simp [hc]
      ring
    · simp [hc]

/-- Helper.  Keys after the dict update of mes_mais_chuvoso come from the
updated key or from the old dict. -/
theorem keysOf_somaPrecip (k : String) (v : ℚ) :
    ∀ (l : List (String × ℚ)) (x : String),
      x ∈ keysOf (somaPrecip k v l) → x = k ∨ x ∈ keysOf l := by
  intro l
  induction l with
  | nil => intro x hx; simp [somaPrecip, keysOf] at hx; exact Or.inl hx
  | cons p resto ih =>
    obtain ⟨ka, s⟩ := p
    intro x hx
    by_cases h1 : ka = k
    · rw [somaPrecip, if_pos h1] at hx
      simp [keysOf] at hx ⊢
      tauto
    · rw [somaPrecip, if_neg h1] at hx
      simp only [keysOf, List.map_cons, List.mem_cons] at hx ⊢
      rcases hx with rfl | hx
      · tauto
      · rcases ih x hx with h | h
        · exact Or.inl h
        · exact Or.inr (Or.inr h)

/-- Helper.  The dict update of mes_mais_chuvoso keeps the keys distinct. -/
theorem nodup_somaPrecip (k : String) (v : ℚ) :
    ∀ l : List (String × ℚ),
      (keysOf l).Nodup → (keysOf (somaPrecip k v l)).Nodup := by
  intro l
  induction l with
  | nil => intro _h; simp [somaPrecip, keysOf]
  | cons p resto ih =>
    obtain ⟨ka, s⟩ := p
    intro h
    simp only [keysOf, List.map_cons, List.nodup_cons] at h
    obtain ⟨hka, hresto⟩ := h
    by_cases h1 : ka = k
    · rw [somaPrecip, if_pos h1]
      simp only [keysOf, List.map_cons, List.nodup_cons]
      exact ⟨hka, hresto⟩
    · rw [somaPrecip, if_neg h1]
      simp only [keysOf, List.map_cons, List.nodup_cons]
      refine ⟨?_, ih hresto⟩
      intro hmem
      rcases keysOf_somaPrecip k v resto ka hmem with h | h
      · exact h1 h
      · exact hka h

/-- Helper.  The grouping fold of mes_mais_chuvoso keeps the keys
distinct. -/
theorem nodup_foldPrecip (dados : List Registro) :
    ∀ acc : List (String × ℚ),
      (keysOf acc).Nodup →
      (keysOf (dados.foldl (fun acc r =>
        somaPrecip (chaveMesAno r.data) r.precipitacao acc) acc)).Nodup := by
  induction dados with
  | nil => intro acc h; exact h
  | cons r resto ih =>
    intro acc h
    rw [List.foldl_cons]
    exact ih _ (nodup_somaPrecip _ _ acc h)

/-- Helper.  In an association list with distinct keys, membership of a pair
is exactly a successful lookup of its key. -/
theorem procura_eq_some_of_mem {α : Type} :
    ∀ l : List (String × α), (keysOf l).Nodup →
      ∀ (k : String) (v : α), ((k, v) ∈ l ↔ procura k l = some v) := by
  intro l
  induction l with
  | nil => intro _h k v; simp [procura]
  | cons p resto ih =>
    obtain ⟨ka, va⟩ := p
    intro h k v
    simp only [keysOf, List.map_cons, List.nodup_cons] at h
    obtain ⟨hka, hresto⟩ := h
    by_cases h1 : ka = k
    · subst h1
      rw [procura, if_pos rfl]
      simp only [List.mem_cons, Prod.mk.injEq, Option.some_inj]
      constructor
      · rintro (⟨-, rfl⟩ | hmem)
        · rfl
        · exact absurd (List.mem_map_of_mem Prod.fst hmem) hka
      · rintro rfl
        simp
    · rw [procura, if_neg h1]
      simp only [List.mem_cons, Prod.mk.injEq]
      rw [← ih hresto k v]
      constructor
      · rintro (⟨h2, -⟩ | hmem)
        · exact absurd h2.symm h1
        · exact hmem
      · exact Or.inr

/-- Helper.  The inner fold of Python max keeps the first element of
maximal value: the result is an element of the candidate or the list, at
least the candidate, and at least every list element. -/
theorem foldl_max (l : List (String × ℚ)) :
    ∀ p0 : String × ℚ,
      (l.foldl (fun melhor x => if x.2 > melhor.2 then x else melhor) p0) ∈
          p0 :: l ∧
        p0.2 ≤ (l.foldl (fun melhor x =>
          if x.2 > melhor.2 then x else melhor) p0).2 ∧
        ∀ x ∈ l, x.2 ≤ (l.foldl (fun melhor x =>
          if x.2 > melhor.2 then x else melhor) p0).2 := by
  induction l with
  | nil => intro p0; simp
  | cons q resto ih =>
    intro p0
    rw [List.foldl_cons]
    by_cases hq : q.2 > p0.2
    · rw [if_pos hq]
      obtain ⟨m1, m2, m3⟩ := ih q
      refine ⟨?_, le_trans (le_of_lt hq) m2, ?_⟩
      · simp only [List.mem_cons] at m1 ⊢
        tauto
      · intro x hx
        rcases List.mem_cons.1 hx with rfl | hx
        · exact m2
        · exact m3 x hx
    · rw [if_neg hq]
      obtain ⟨m1, m2, m3⟩ := ih p0
      refine ⟨?_, m2, ?_⟩
      · simp only [List.mem_cons] at m1 ⊢
        tauto
      · intro x hx
        rcases List.mem_cons.1 hx with rfl | hx
        · exact le_trans (not_lt.1 hq) m2
        · exact m3 x hx

/-- Helper.  Every entry of the grouping dict of mes_mais_chuvoso carries
the total precipitation of the records with its key. -/
theorem valor_precipitacao_por_mes (dados : List Registro)
    (p : String × ℚ) (hp : p ∈ precipitacao_por_mes dados) :
    p.2 = somaChave dados p.1 := by
  obtain ⟨k, v⟩ := p
  have hnd : (keysOf (precipitacao_por_mes dados)).Nodup :=
    nodup_foldPrecip dados [] (by simp [keysOf])
  have hs := (procura_eq_some_of_mem _ hnd k v).1 hp
  have hc := procura_foldPrecip dados [] k
  unfold precipitacao_por_mes at hs
  rw [hs] at hc
  simpa [procura] using hc

/-- C5.  On a non-empty collection mes_mais_chuvoso returns an entry of its
month-name/year grouping whose accumulated precipitation is maximal, paired
with that total; every entry of the grouping totals the precipitation of the
records with its key over all years; and on the two-record Jan/2010 (5.0),
Feb/2010 (20.0) collection it returns February/2010 with 20.0. -/
theorem mes_mais_chuvoso_maximo :
    (∀ dados : List Registro, dados ≠ [] →
      ∃ k v, mes_mais_chuvoso dados = some (k, v) ∧ v = somaChave dados k ∧
        ∀ p ∈ precipitacao_por_mes dados, p.2 ≤ v) ∧
    (∀ (dados : List Registro) (p : String × ℚ),
        p ∈ precipitacao_por_mes dados → p.2 = somaChave dados p.1) ∧
    mes_mais_chuvoso [regJan10, regFev10] = some ("February/2010", 20) := by
  refine ⟨?_, fun dados p hp => valor_precipitacao_por_mes dados p hp, by decide⟩
  intro dados h
  cases hg : precipitacao_por_mes dados with
  | nil => exact absurd hg (precipitacao_por_mes_ne_nil dados h)
  | cons g gs =>
    obtain ⟨m1, m2, m3⟩ := foldl_max gs g
    refine ⟨(gs.foldl (fun melhor x => if x.2 > melhor.2 then x else melhor) g).1,
            (gs.foldl (fun melhor x => if x.2 > melhor.2 then x else melhor) g).2,
            ?_, ?_, ?_⟩
    · unfold mes_mais_chuvoso maxPorValor
      rw [hg]
    · exact valor_precipitacao_por_mes dados _ (by rw [hg]; exact m1)
    · intro p hp
      rcases List.mem_cons.1 hp with rfl | hp
      · exact m2
      · exact m3 p hp

theorem mes_mais_chuvoso_maximo_witness :
    ∃ k v, mes_mais_chuvoso [regJan10, regFev10] = some (k, v) ∧
      v = somaChave [regJan10, regFev10] k ∧
      ∀ p ∈ precipitacao_por_mes [regJan10, regFev10], p.2 ≤ v :=
  mes_mais_chuvoso_maximo.1 [regJan10, regFev10] (by simp)

/-- Helper.  Lookup after the dict-of-lists update of
media_temp_minima_mes: the updated key holds its old list (empty when
absent) with the value appended. -/
theorem procura_acrescenta (k k2 : String) (v : ℚ) :
    ∀ l : List (String × List ℚ),
      procura k (acrescenta k2 v l) =
        if k2 = k then some ((procura k l).getD [] ++ [v])
        else procura k l := by
  intro l
  induction l with
  | nil =>
    simp only [acrescenta, procura]
    split_ifs <;> simp
  | cons p resto ih =>
    obtain ⟨ka, la⟩ := p
    by_cases h1 : ka = k2
    · subst h1
      simp only [acrescenta, if_pos rfl]
      by_cases h2 : ka = k
      · subst h2
        simp [procura]
      · simp [procura, h2]
    · simp only [acrescenta, if_neg h1]
      by_cases h2 : ka = k
      · subst h2
        have h3 : ¬ k2 = ka := fun e => h1 e.symm
        simp [procura, h3]
      · simp [procura, h2, ih]

/-- Helper.  Lookup after the grouping fold of media_temp_minima_mes: each
key collects exactly the temp_min values of its matching records, in
collection order. -/
theorem procura_foldAgrupa (mes : Int) (dados : List Registro) :
    ∀ (acc : List (String × List ℚ)) (k : String),
      (procura k (dados.foldl (fun acc r =>
          if 2006 ≤ r.data.ano ∧ r.data.ano ≤ 2016 ∧ r.data.mes = mes then
            acrescenta (chaveMes r.data) r.temp_min acc
          else acc) acc)).getD [] =
        (procura k acc).getD [] ++ valoresChave dados mes k := by
  induction dados with
  | nil => intro acc k; simp [valoresChave]
  | cons r resto ih =>
    intro acc k
    rw [List.foldl_cons]
    by_cases hp : 2006 ≤ r.data.ano ∧ r.data.ano ≤ 2016 ∧ r.data.mes = mes
    · rw [if_pos hp, ih, procura_acrescenta]
      unfold valoresChave
      rw [List.filter_cons]
      by_cases hc : chaveMes r.data = k
      · simp [hp, hc]
      · simp [hc]
    · rw [if_neg hp, ih]
      unfold valoresChave
      rw [List.filter_cons]
      simp [hp]

/-- Helper.  Presence of a key after the grouping fold of
media_temp_minima_mes: a key is present exactly when it was present before
or some record of the collection matches it. -/
theorem isSome_foldAgrupa (mes : Int) (dados : List Registro) :
    ∀ (acc : List (String × List ℚ)) (k : String),
      (procura k (dados.foldl (fun acc r =>
          if 2006 ≤ r.data.ano ∧ r.data.ano ≤ 2016 ∧ r.data.mes = mes then
            acrescenta (chaveMes r.data) r.temp_min acc
          else acc) acc)).isSome =
        ((procura k acc).isSome ||
          dados.any (fun r =>
            decide ((2006 ≤ r.data.ano ∧ r.data.ano ≤ 2016 ∧
              r.data.mes = mes) ∧ chaveMes r.data = k))) := by
  induction dados with
  | nil => intro acc k; simp
  | cons r resto ih =>
    intro acc k
    rw [List.foldl_cons, List.any_cons]
    by_cases hp : 2006 ≤ r.data.ano ∧ r.data.ano ≤ 2016 ∧ r.data.mes = mes
    · rw [if_pos hp, ih, procura_acrescenta]
      by_cases hc : chaveMes r.data = k
      · simp [hp, hc]
      · simp [hp, hc]
    · rw [if_neg hp, ih]
      simp [hp]

/-- Helper.  Keys after the dict-of-lists update come from the updated key
or from the old dict. -/
theorem keysOf_acrescenta (k : String) (v : ℚ) :
    ∀ (l : List (String × List ℚ)) (x : String),
      x ∈ keysOf (acrescenta k v l) → x = k ∨ x ∈ keysOf l := by
  intro l
  induction l with
  | nil => intro x hx; simp [acrescenta, keysOf] at hx; exact Or.inl hx
  | cons p resto ih =>
    obtain ⟨ka, la⟩ := p
    intro x hx
    by_cases h1 : ka = k
    · rw [acrescenta, if_pos h1] at hx
      simp [keysOf] at hx ⊢
      tauto
    · rw [acrescenta, if_neg h1] at hx
      simp only [keysOf, List.map_cons, List.mem_cons] at hx ⊢
      rcases hx with rfl | hx
      · tauto
      · rcases ih x hx with h | h
        · exact Or.inl h
        · exact Or.inr (Or.inr h)

/-- Helper.  Every key produced by the grouping fold of
media_temp_minima_mes was already in the accumulator or is the key of a
matching record of the collection. -/
theorem chave_mem_foldAgrupa (mes : Int) (dados : List Registro) :
    ∀ (acc : List (String × List ℚ)) (q : String × List ℚ),
      q ∈ dados.foldl (fun acc r =>
          if 2006 ≤ r.data.ano ∧ r.data.ano ≤ 2016 ∧ r.data.mes = mes then
            acrescenta (chaveMes r.data) r.temp_min acc
          else acc) acc →
      q.1 ∈ keysOf acc ∨
        ∃ r, r ∈ dados ∧
          (2006 ≤ r.data.ano ∧ r.data.ano ≤ 2016 ∧ r.data.mes = mes) ∧
          q.1 = chaveMes r.data := by
  induction dados with
  | nil =>
    intro acc q hq
    exact Or.inl (List.mem_map_of_mem Prod.fst hq)
  | cons r resto ih =>
    intro acc q hq
    rw [List.foldl_cons] at hq
    by_cases hp : 2006 ≤ r.data.ano ∧ r.data.ano ≤ 2016 ∧ r.data.mes = mes
    · rw [if_pos hp] at hq
      rcases ih _ q hq with h | ⟨r2, hr2, hp2, hc2⟩
      · rcases keysOf_acrescenta _ _ acc q.1 h with h2 | h2
        · exact Or.inr ⟨r, List.mem_cons_self r resto, hp, h2⟩
        · exact Or.inl h2
      · exact Or.inr ⟨r2, List.mem_cons_of_mem r hr2, hp2, hc2⟩
    · rw [if_neg hp] at hq
      rcases ih acc q hq with h | ⟨r2, hr2, hp2, hc2⟩
      · exact Or.inl h
      · exact Or.inr ⟨r2, List.mem_cons_of_mem r hr2, hp2, hc2⟩

/-- Helper.  Lookup commutes with the value-wise map that turns each
grouped list into its average. -/
theorem procura_map {α β : Type} (g : α → β) (k : String) :
    ∀ l : List (String × α),
      procura k (l.map (fun p => (p.1, g p.2))) = (procura k l).map g := by
  intro l
  induction l with
  | nil => rfl
  | cons p resto ih =>
    obtain ⟨ka, va⟩ := p
    by_cases h1 : ka = k
    · simp [procura, h1]
    · simp [procura, h1, ih]

/-- Helper.  String concatenation cancels on the left. -/
theorem string_append_cancel (s a b : String) (h : s ++ a = s ++ b) :
    a = b := by
  apply String.ext
  have hd : s.data ++ a.data = s.data ++ b.data := by
    rw [← String.data_append, ← String.data_append, h]
  exact List.append_cancel_left hd

/-- Helper.  On the hardcoded year band 2006..2016, the decimal string of a
year determines the year. -/
theorem toString_inj_band (a : Int) (ha1 : 2006 ≤ a) (ha2 : a ≤ 2016)
    (b : Int) (hb1 : 2006 ≤ b) (hb2 : b ≤ 2016)
    (h : toString a = toString b) : a = b := by
  have hdec : ∀ a ∈ Finset.Icc (2006:ℤ) 2016,
      ∀ b ∈ Finset.Icc (2006:ℤ) 2016, toString a = toString b → a = b := by
    decide
  exact hdec a (Finset.mem_Icc.2 ⟨ha1, ha2⟩) b (Finset.mem_Icc.2 ⟨hb1, hb2⟩) h

/-- Helper.  For a month of 1..12 and a year of the band, a record matches
the grouping predicate with the key of that month and year exactly when it
is a record of that year and month. -/
theorem predicado_chave (mes y : Int)
    (hy1 : 2006 ≤ y) (hy2 : y ≤ 2016) (r : Registro) :
    ((2006 ≤ r.data.ano ∧ r.data.ano ≤ 2016 ∧ r.data.mes = mes) ∧
        chaveMes r.data = chaveAno mes y) ↔
      (r.data.ano = y ∧ r.data.mes = mes) := by
  constructor
  · rintro ⟨⟨hb1, hb2, hmes⟩, hch⟩
    refine ⟨?_, hmes⟩
    unfold chaveMes chaveAno at hch
    rw [hmes] at hch
    exact toString_inj_band r.data.ano hb1 hb2 y hy1 hy2
      (string_append_cancel _ _ _ hch)
  · rintro ⟨hy, hmes⟩
    refine ⟨⟨by omega, by omega, hmes⟩, ?_⟩
    unfold chaveMes chaveAno
    rw [hmes, hy]

/-- C4.  For any month of 1..12 and any year of the hardcoded band
2006..2016, the mapping of media_temp_minima_mes holds the key of that month
and year exactly when the collection has a record of that year and month,
and then its value is the sum of their temp_min divided by their count; a
year with no matching record has no entry; every entry of the mapping stems
from a matching record of the band; and on the two-record January/2007
collection with temp_min 10.0 and 14.0 the result is exactly
January2007 maps-to 12.0. -/
theorem media_mapeiaAnos :
    (∀ (dados : List Registro) (mes y : Int),
        1 ≤ mes → mes ≤ 12 → 2006 ≤ y → y ≤ 2016 →
        procura (chaveAno mes y) (media_temp_minima_mes dados mes) =
          if filtraAnoMes dados y mes = [] then none
          else some
            (((filtraAnoMes dados y mes).map (fun r => r.temp_min)).sum /
              ((filtraAnoMes dados y mes).length : ℚ))) ∧
    (∀ (dados : List Registro) (mes : Int) (p : String × ℚ),
        p ∈ media_temp_minima_mes dados mes →
        ∃ r, r ∈ dados ∧
          (2006 ≤ r.data.ano ∧ r.data.ano ≤ 2016 ∧ r.data.mes = mes) ∧
          p.1 = chaveMes r.data) ∧
    media_temp_minima_mes [regT1, regT2] 1 = [("January2007", 12)] := by
  refine ⟨?_, ?_, ?_⟩
  · intro dados mes y hm1 hm2 hy1 hy2
    unfold media_temp_minima_mes
    rw [if_neg (not_not_intro ⟨hm1, hm2⟩)]
    show procura (chaveAno mes y) ((agrupaTempMin dados mes).map
      (fun p => (p.1, (fun l : List ℚ => l.sum / (l.length : ℚ)) p.2))) = _
    rw [procura_map (fun l : List ℚ => l.sum / (l.length : ℚ)) (chaveAno mes y)
      (agrupaTempMin dados mes)]
    have hfc : dados.filter (fun r =>
        decide ((2006 ≤ r.data.ano ∧ r.data.ano ≤ 2016 ∧ r.data.mes = mes) ∧
          chaveMes r.data = chaveAno mes y)) = filtraAnoMes dados y mes := by
      apply List.filter_congr
      intro r _hr
      simp only [decide_eq_decide]
      exact predicado_chave mes y hy1 hy2 r
    by_cases hnil : filtraAnoMes dados y mes = []
    · rw [if_pos hnil]
      have hany : dados.any (fun r =>
          decide ((2006 ≤ r.data.ano ∧ r.data.ano ≤ 2016 ∧ r.data.mes = mes) ∧
            chaveMes r.data = chaveAno mes y)) = false := by
        rw [List.any_eq_false]
        intro r hr
        have hno := List.filter_eq_nil_iff.1 hnil r hr
        simp only [decide_eq_true_eq] at hno ⊢
        unfold filtraAnoMes at hnil
        intro hcon
        exact hno ((predicado_chave mes y hy1 hy2 r).1 hcon)
      have hi := isSome_foldAgrupa mes dados [] (chaveAno mes y)
      rw [hany] at hi
      have hnone : procura (chaveAno mes y) (agrupaTempMin dados mes) = none := by
        apply Option.not_isSome_iff_eq_none.1
        unfold agrupaTempMin
        simp [procura] at hi
        simp [hi]
      rw [hnone]
      rfl
    · rw [if_neg hnil]
      obtain ⟨r0, hr0⟩ := List.exists_mem_of_ne_nil _ hnil
      unfold filtraAnoMes at hr0
      have hmf := List.mem_filter.1 hr0
      have hr0d : r0 ∈ dados := hmf.1
      have hr0p : decide (r0.data.ano = y ∧ r0.data.mes = mes) = true := hmf.2
      have hany : dados.any (fun r =>
          decide ((2006 ≤ r.data.ano ∧ r.data.ano ≤ 2016 ∧ r.data.mes = mes) ∧
            chaveMes r.data = chaveAno mes y)) = true := by
        rw [List.any_eq_true]
        refine ⟨r0, hr0d, ?_⟩
        simp only [decide_eq_true_eq] at hr0p ⊢
        exact (predicado_chave mes y hy1 hy2 r0).2 hr0p
      have hi := isSome_foldAgrupa mes dados [] (chaveAno mes y)
      rw [hany] at hi
      simp only [procura, Option.isSome_none, Bool.false_or] at hi
      have hi2 : (procura (chaveAno mes y)
          (agrupaTempMin dados mes)).isSome = true := by
        unfold agrupaTempMin
        exact hi
      obtain ⟨l0, hl0⟩ := Option.isSome_iff_exists.1 hi2
      have hval := procura_foldAgrupa mes dados [] (chaveAno mes y)
      unfold agrupaTempMin at hl0
      rw [hl0] at hval
      simp only [procura, Option.getD_some, Option.getD_none,
        List.nil_append] at hval
      unfold agrupaTempMin
      rw [hl0, hval]
      unfold valoresChave
      rw [hfc]
      simp [List.length_map]
  · intro dados mes p hp
    unfold media_temp_minima_mes at hp
    by_cases hm : ¬(1 ≤ mes ∧ mes ≤ 12)
    · rw [if_pos hm] at hp
      cases hp
    · rw [if_neg hm] at hp
      obtain ⟨q, hq, hpq⟩ := List.mem_map.1 hp
      unfold agrupaTempMin at hq
      rcases chave_mem_foldAgrupa mes dados [] q hq with h | ⟨r, hr, hpr, hcr⟩
      · simp [keysOf] at h
      · refine ⟨r, hr, hpr, ?_⟩
        rw [← hpq]
        exact hcr
  · have h1 : agrupaTempMin [regT1, regT2] 1 =
        [("January2007", [(10:ℚ), 14])] := by decide
    unfold media_temp_minima_mes
    rw [if_neg (by norm_num), h1]
    norm_num [List.sum]

theorem media_mapeiaAnos_witness :
    procura (chaveAno 1 2007) (media_temp_minima_mes [regT1, regT2] 1) =
        some 12 ∧
      procura (chaveAno 1 2008) (media_temp_minima_mes [regT1, regT2] 1) =
        none := by
  constructor
  · rw [media_mapeiaAnos.1 [regT1, regT2] 1 2007
      (by norm_num) (by norm_num) (by norm_num) (by norm_num)]
    have hf : filtraAnoMes [regT1, regT2] 2007 1 = [regT1, regT2] := by decide
    rw [hf, if_neg (by decide)]
    norm_num [regT1, regT2, reg, List.sum]
  · rw [media_mapeiaAnos.1 [regT1, regT2] 1 2008
      (by norm_num) (by norm_num) (by norm_num) (by norm_num)]
    rw [if_pos (by decide)]
